import Mathlib

/-!
Verification of the CheXpert replication notebook's data-processing logic.

The development shallowly embeds the two pieces of algorithmic content of
the repository:

* the label deriver (`feature_string` over the fixed `u_one_features` /
  `u_zero_features` policy), and
* the study-level evaluator (groupby-(patient, study) element-wise maximum
  aggregation feeding per-finding AUC computation).

Raw CSV label cells hold -1, 0, 1 or are blank (pandas NaN); a blank cell is
embedded as `none`.  Prediction scores and aggregated values are embedded as
rationals.
-/

/-- One row of the concatenated CheXpert table at the point where
`feature_string` is applied: the image path, the derived patient and study
columns (possibly missing), the train/valid split flag, and the finding
columns as a name-indexed map to an optional integer label (`none` embeds a
blank / NaN cell). -/
structure RawRow where
  path : String
  patient : Option String
  study : Option String
  train_valid : Bool
  labels : String → Option Int

/-- Findings trained with the U-Ones policy (uncertain mapped to positive). -/
def u_one_features : List String := ["Atelectasis", "Edema"]

/-- Findings trained with the U-Zeros policy (uncertain mapped to negative). -/
def u_zero_features : List String := ["Cardiomegaly", "Consolidation", "Pleural Effusion"]

/-- The five findings evaluated against the CheXpert paper. -/
def chexpert_targets : List String :=
  ["Atelectasis", "Cardiomegaly", "Consolidation", "Edema", "Pleural Effusion"]

/-- The list built by the loop body of `feature_string`: a U-Ones finding is
appended when its raw value is -1 or 1, a U-Zeros finding when its raw value
is exactly 1. -/
def feature_list (row : RawRow) : List String :=
  u_one_features.filter (fun f => decide (row.labels f = some (-1) ∨ row.labels f = some 1))
    ++ u_zero_features.filter (fun f => decide (row.labels f = some 1))

/-- The notebook function `feature_string`: the derived finding names joined with
the `;` delimiter. -/
def feature_string (row : RawRow) : String :=
  String.intercalate ";" (feature_list row)

/-- Membership in the derived list, characterised by the policy lists and the
raw value. -/
lemma mem_feature_list (row : RawRow) (f : String) :
    f ∈ feature_list row ↔
      (f ∈ u_one_features ∧ (row.labels f = some (-1) ∨ row.labels f = some 1)) ∨
      (f ∈ u_zero_features ∧ row.labels f = some 1) := by
  simp [feature_list, List.mem_append, List.mem_filter]

/-- C1: a finding is in the derived label set iff (its policy is
uncertain-as-positive and its raw value is -1 or 1) or (its policy is
uncertain-as-negative and its raw value is exactly 1); a missing raw value
never puts a finding in the set under either rule. -/
theorem feature_list_mem_iff_policy (row : RawRow) (f : String) :
    (f ∈ feature_list row ↔
      (f ∈ u_one_features ∧ (row.labels f = some (-1) ∨ row.labels f = some 1)) ∨
      (f ∈ u_zero_features ∧ row.labels f = some 1)) ∧
    (row.labels f = none → f ∉ feature_list row) := by
  refine ⟨mem_feature_list row f, fun hnone hmem => ?_⟩
  rcases (mem_feature_list row f).mp hmem with ⟨_, h | h⟩ | ⟨_, h⟩ <;>
    rw [hnone] at h <;> exact Option.noConfusion h

/-- A row whose finding cells are all blank. -/
def rowAllMissing : RawRow :=
  { path := "CheXpert-v1.0-small/train/patient00001/study1/view1_frontal.jpg"
    patient := some "patient00001"
    study := some "study1"
    train_valid := false
    labels := fun _ => none }

/-- C1 witness: on a row with every finding blank, Atelectasis is not derived. -/
theorem feature_list_mem_iff_policy_witness :
    "Atelectasis" ∉ feature_list rowAllMissing :=
  (feature_list_mem_iff_policy rowAllMissing "Atelectasis").2 rfl

/-- C3: the derived label set is serialized as the finding names joined with
the `;` delimiter; the serialization order is the fixed policy-list order
(the derived list is a sublist of `u_one_features ++ u_zero_features`), the
list is duplicate-free, and an empty derived set serializes to the empty
string (a real string value). -/
theorem feature_string_serialization (row : RawRow) :
    feature_string row = String.intercalate ";" (feature_list row) ∧
    (feature_list row).Nodup ∧
    List.Sublist (feature_list row) (u_one_features ++ u_zero_features) ∧
    (feature_list row = [] → feature_string row = "") := by
  have hsub : List.Sublist (feature_list row) (u_one_features ++ u_zero_features) :=
    List.Sublist.append (List.filter_sublist _) (List.filter_sublist _)
  refine ⟨rfl, hsub.nodup (by decide), hsub, fun h => ?_⟩
  rw [feature_string, h]
  rfl

/-- The spec's concrete scenario row: Atelectasis = 0, Cardiomegaly = -1,
all other findings blank. -/
def rowScenarioEmpty : RawRow :=
  { path := "CheXpert-v1.0-small/train/patient00002/study1/view1_frontal.jpg"
    patient := some "patient00002"
    study := some "study1"
    train_valid := false
    labels := fun f =>
      if f = "Atelectasis" then some 0
      else if f = "Cardiomegaly" then some (-1) else none }

/-- C3 witness: the scenario row with Atelectasis = 0 and Cardiomegaly = -1
derives the empty set, which serializes to `""`. -/
theorem feature_string_serialization_witness :
    feature_string rowScenarioEmpty = "" :=
  (feature_string_serialization rowScenarioEmpty).2.2.2 (by decide)

/-- C9: noninterference — two rows that agree on the five policy-governed
finding columns get identical derived label strings, whatever their paths,
patient/study identifiers, split flags, or other finding columns. -/
theorem feature_string_noninterference (r₁ r₂ : RawRow)
    (h : ∀ f ∈ chexpert_targets, r₁.labels f = r₂.labels f) :
    feature_string r₁ = feature_string r₂ := by
  have h₁ : ∀ f ∈ u_one_features, r₁.labels f = r₂.labels f := by
    intro f hf
    exact h f (by fin_cases hf <;> decide)
  have h₂ : ∀ f ∈ u_zero_features, r₁.labels f = r₂.labels f := by
    intro f hf
    exact h f (by fin_cases hf <;> decide)
  have e₁ : u_one_features.filter
        (fun f => decide (r₁.labels f = some (-1) ∨ r₁.labels f = some 1))
      = u_one_features.filter
        (fun f => decide (r₂.labels f = some (-1) ∨ r₂.labels f = some 1)) :=
    List.filter_congr (fun f hf => by rw [h₁ f hf])
  have e₂ : u_zero_features.filter (fun f => decide (r₁.labels f = some 1))
      = u_zero_features.filter (fun f => decide (r₂.labels f = some 1)) :=
    List.filter_congr (fun f hf => by rw [h₂ f hf])
  have : feature_list r₁ = feature_list r₂ := by
    unfold feature_list
    rw [e₁, e₂]
  rw [feature_string, feature_string, this]

/-- A row agreeing with `rowScenarioEmpty` on the five target findings but
differing in path, identifiers, split flag, and a non-target finding. -/
def rowScenarioEmptyVariant : RawRow :=
  { path := "CheXpert-v1.0-small/valid/patient99999/study2/view2_lateral.jpg"
    patient := some "patient99999"
    study := some "study2"
    train_valid := true
    labels := fun f =>
      if f = "Atelectasis" then some 0
      else if f = "Cardiomegaly" then some (-1)
      else if f = "Pneumonia" then some 1 else none }

/-- C9 witness: the two concrete rows agree on the five target findings, and
their derived label strings coincide. -/
theorem feature_string_noninterference_witness :
    (∀ f ∈ chexpert_targets,
      rowScenarioEmpty.labels f = rowScenarioEmptyVariant.labels f) ∧
    feature_string rowScenarioEmpty = feature_string rowScenarioEmptyVariant :=
  ⟨by decide, feature_string_noninterference _ _ (by decide)⟩

/-- First occurrence of `sep`: returns the characters before it and after it. -/
def breakAtSep (sep : Char) : List Char → Option (List Char × List Char)
  | [] => none
  | c :: cs =>
    if c = sep then some ([], cs)
    else
      match breakAtSep sep cs with
      | none => none
      | some (pre, post) => some (c :: pre, post)

/-- Python-style bounded split on a character: at most `n` splits are made,
the remainder is kept whole (the semantics of `str.split(sep, n)` used by
`Series.str.split('/', n, expand=True)` in the notebook). -/
def pySplitAux (sep : Char) : Nat → List Char → List (List Char)
  | 0, cs => [cs]
  | Nat.succ n, cs =>
    match breakAtSep sep cs with
    | none => [cs]
    | some (pre, post) => pre :: pySplitAux sep n post

/-- Python `s.split(sep, n)` lifted to strings. -/
def pySplit (s : String) (sep : Char) (n : Nat) : List String :=
  (pySplitAux sep n s.data).map (fun l => String.mk l)

/-- The notebook's patient column: `Path.str.split('/',3,True)[2]`.  When the
path has fewer than three segments, pandas pads the expanded frame with a
missing value, embedded here as `none`. -/
def derivePatient (path : String) : Option String :=
  (pySplit path '/' 3)[2]?

/-- The notebook's study column: `Path.str.split('/',4,True)[3]`. -/
def deriveStudy (path : String) : Option String :=
  (pySplit path '/' 4)[3]?

/-- Modelled from the spec: the repository has no error type for identifier
derivation; this is the spec's fail-fast deriver, which raises
`PathParseError` when the 3rd path segment (patient) is absent. -/
def derivePatientSpec (path : String) : Except String String :=
  match (pySplit path '/' 3)[2]? with
  | some seg => Except.ok seg
  | none => Except.error "PathParseError"

/-- Modelled from the spec: the spec's fail-fast deriver for the study
identifier (4th path segment), raising `PathParseError` when absent. -/
def deriveStudySpec (path : String) : Except String String :=
  match (pySplit path '/' 4)[3]? with
  | some seg => Except.ok seg
  | none => Except.error "PathParseError"

/-- C6 counterexample: on a path with only two segments the code derives the
silent missing identifier `none` for both columns and keeps going, whereas
the spec's deriver raises `PathParseError`. -/
theorem derive_ids_no_failure_counterexample :
    derivePatient "patient00001/study1" = none ∧
    deriveStudy "patient00001/study1" = none ∧
    derivePatientSpec "patient00001/study1" = Except.error "PathParseError" ∧
    deriveStudySpec "patient00001/study1" = Except.error "PathParseError" :=
  ⟨rfl, rfl, rfl, rfl⟩

/-- C6 (amended): identifier derivation never fails; a path lacking the 3rd
(resp. 4th) positional segment silently yields the missing identifier `none`,
and otherwise the identifier is exactly that positional segment. -/
theorem derive_ids_silent_missing (path : String) :
    (derivePatient path = none ↔ (pySplit path '/' 3).length ≤ 2) ∧
    (deriveStudy path = none ↔ (pySplit path '/' 4).length ≤ 3) ∧
    derivePatient path = (pySplit path '/' 3)[2]? ∧
    deriveStudy path = (pySplit path '/' 4)[3]? := by
  refine ⟨?_, ?_, rfl, rfl⟩ <;> simp [derivePatient, deriveStudy, List.getElem?_eq_none_iff]

/-- A raw finding cell is in the admissible domain {-1, 0, 1, blank}. -/
def validLabel (v : Option Int) : Bool :=
  match v with
  | none => true
  | some i => i == -1 || i == 0 || i == 1

/-- Modelled from the spec: the repository's `feature_string` has no check on
the raw values; this is the spec's checked deriver, which raises
`InvalidLabelValueError` when a policy-governed finding holds a value outside
{-1, 0, 1, blank}. -/
def feature_string_checked (row : RawRow) : Except String String :=
  if (u_one_features ++ u_zero_features).all (fun f => validLabel (row.labels f)) then
    Except.ok (feature_string row)
  else Except.error "InvalidLabelValueError"

/-- A row with the out-of-range value 2 for Atelectasis, and value 1 for
Edema and Cardiomegaly. -/
def rowOutOfRange : RawRow :=
  { path := "CheXpert-v1.0-small/train/patient00003/study1/view1_frontal.jpg"
    patient := some "patient00003"
    study := some "study1"
    train_valid := false
    labels := fun f =>
      if f = "Atelectasis" then some 2
      else if f = "Edema" then some 1
      else if f = "Cardiomegaly" then some 1 else none }

/-- C7 counterexample: on a row whose Atelectasis cell holds 2, the code
silently excludes the finding and still returns a label string, whereas the
spec's checked deriver raises `InvalidLabelValueError`. -/
theorem invalid_label_no_failure_counterexample :
    feature_string rowOutOfRange = "Edema;Cardiomegaly" ∧
    feature_string_checked rowOutOfRange = Except.error "InvalidLabelValueError" :=
  ⟨rfl, rfl⟩

/-- C7 (amended): a policy-governed finding whose raw value is outside
{-1, 1} — in particular any out-of-range value such as 2 — is silently
excluded from the derived label set; no error is raised. -/
theorem invalid_label_silently_excluded (row : RawRow) (f : String) (v : Int)
    (hv : row.labels f = some v) (h₁ : v ≠ -1) (h₂ : v ≠ 1) :
    f ∉ feature_list row := by
  intro hmem
  rcases (mem_feature_list row f).mp hmem with ⟨_, h | h⟩ | ⟨_, h⟩ <;>
    rw [hv] at h <;> injection h with h <;> simp_all

/-- C7 amended-claim witness: Atelectasis with raw value 2 is excluded from
the derived set of `rowOutOfRange`. -/
theorem invalid_label_silently_excluded_witness :
    "Atelectasis" ∉ feature_list rowOutOfRange :=
  invalid_label_silently_excluded rowOutOfRange "Atelectasis" 2 rfl
    (by decide) (by decide)

/-- One row of a per-image table entering the study-level evaluator: the
(patient, study) grouping key and the finding columns as a name-indexed map
to a rational value (a ground-truth indicator or a predicted score). -/
structure ObsRow where
  patient : String
  study : String
  vals : String → Rat

/-- The rows of the group keyed by `(p, s)`: the notebook's
`groupby(['patient','study'])` group selection. -/
def groupRows (t : List ObsRow) (p s : String) : List ObsRow :=
  t.filter (fun r => decide (r.patient = p ∧ r.study = s))

/-- The `.max()` aggregate of column `c` over the `(p, s)` group; `none` when
the key has no rows. -/
def aggVal (t : List ObsRow) (p s c : String) : Option Rat :=
  ((groupRows t p s).map (fun r => r.vals c)).max?

/-- The distinct (patient, study) keys of a table. -/
def studyKeys (t : List ObsRow) : List (String × String) :=
  (t.map (fun r => (r.patient, r.study))).dedup

/-- The one-row-per-study table produced by the grouped maximum: the
notebook's `groupby(['patient','study'])[classes].max()` reshaped back into
per-row form. -/
def aggTable (t : List ObsRow) : List ObsRow :=
  (studyKeys t).map (fun k =>
    { patient := k.1, study := k.2
      vals := fun c => (aggVal t k.1 k.2 c).getD 0 })

/-- The list maximum only depends on the multiset of elements. -/
lemma max?_eq_of_perm {α : Type} [LinearOrder α] {l₁ l₂ : List α}
    (h : l₁.Perm l₂) : l₁.max? = l₂.max? := by
  induction h with
  | nil => rfl
  | cons x _ ih => rw [List.max?_cons, List.max?_cons, ih]
  | swap x y l =>
    rw [List.max?_cons, List.max?_cons, List.max?_cons, List.max?_cons]
    cases l.max? <;> simp [max_comm, max_left_comm]
  | trans _ _ ih₁ ih₂ => exact ih₁.trans ih₂

/-- Group aggregates only depend on the multiset of rows. -/
lemma aggVal_eq_of_perm {t₁ t₂ : List ObsRow} (h : t₁.Perm t₂)
    (p s c : String) : aggVal t₁ p s c = aggVal t₂ p s c :=
  max?_eq_of_perm ((h.filter _).map _)

/-- C2: the study-level aggregation groups rows by the (patient, study) key
and takes the element-wise maximum per finding column; the same aggregate is
used on the ground-truth table and on the predicted-score table, and both
results are unchanged under any permutation of the input rows. -/
theorem study_agg_perm_invariant (acts acts' preds preds' : List ObsRow)
    (ha : acts.Perm acts') (hp : preds.Perm preds') (p s c : String) :
    aggVal acts p s c = aggVal acts' p s c ∧
    aggVal preds p s c = aggVal preds' p s c :=
  ⟨aggVal_eq_of_perm ha p s c, aggVal_eq_of_perm hp p s c⟩

/-- Two images of the same study, ground truth Edema = 0 and 1. -/
def actRow₁ : ObsRow :=
  { patient := "patient00001", study := "study1"
    vals := fun c => if c = "Edema" then 0 else 0 }

/-- Second ground-truth image row of the study, Edema = 1. -/
def actRow₂ : ObsRow :=
  { patient := "patient00001", study := "study1"
    vals := fun c => if c = "Edema" then 1 else 0 }

/-- Predicted-score row, Edema score 1/5. -/
def predRow₁ : ObsRow :=
  { patient := "patient00001", study := "study1"
    vals := fun c => if c = "Edema" then 1/5 else 0 }

/-- Predicted-score row, Edema score 9/10. -/
def predRow₂ : ObsRow :=
  { patient := "patient00001", study := "study1"
    vals := fun c => if c = "Edema" then 9/10 else 0 }

/-- C2 witness: swapping the two rows of each concrete table leaves the
Edema aggregate of the study unchanged. -/
theorem study_agg_perm_invariant_witness :
    aggVal [actRow₁, actRow₂] "patient00001" "study1" "Edema"
        = aggVal [actRow₂, actRow₁] "patient00001" "study1" "Edema" ∧
    aggVal [predRow₁, predRow₂] "patient00001" "study1" "Edema"
        = aggVal [predRow₂, predRow₁] "patient00001" "study1" "Edema" :=
  study_agg_perm_invariant _ _ _ _
    (List.Perm.swap actRow₂ actRow₁ []) (List.Perm.swap predRow₂ predRow₁ [])
    "patient00001" "study1" "Edema"

/-- A key is among the study keys exactly when some row carries it. -/
lemma mem_studyKeys (t : List ObsRow) (p s : String) :
    (p, s) ∈ studyKeys t ↔ ∃ r ∈ t, r.patient = p ∧ r.study = s := by
  simp [studyKeys, List.mem_dedup, List.mem_map, Prod.ext_iff]

/-- A group is empty exactly when its key is not among the study keys. -/
lemma groupRows_eq_nil_iff (t : List ObsRow) (p s : String) :
    groupRows t p s = [] ↔ (p, s) ∉ studyKeys t := by
  rw [mem_studyKeys]
  simp [groupRows, List.filter_eq_nil_iff]

/-- Filtering a duplicate-free list for one of its members yields exactly
that member. -/
lemma filter_eq_singleton_of_nodup {α : Type} [DecidableEq α] :
    ∀ (l : List α) (a : α), l.Nodup → a ∈ l →
      l.filter (fun b => decide (b = a)) = [a] := by
  intro l a hnd ha
  induction l with
  | nil => cases ha
  | cons x l ih =>
    rcases List.nodup_cons.mp hnd with ⟨hx, hl⟩
    rcases List.mem_cons.mp ha with h | h
    · subst h
      have : l.filter (fun b => decide (b = a)) = [] :=
        List.filter_eq_nil_iff.mpr (fun b hb => by
          simp only [decide_eq_true_eq]
          exact fun e => hx (e ▸ hb))
      simp [List.filter_cons, this]
    · have hxa : x ≠ a := fun e => hx (e ▸ h)
      simp [List.filter_cons, hxa, ih hl h]

/-- Filtering for an absent element yields the empty list. -/
lemma filter_eq_nil_of_not_mem {α : Type} [DecidableEq α] (l : List α) (a : α)
    (ha : a ∉ l) : l.filter (fun b => decide (b = a)) = [] :=
  List.filter_eq_nil_iff.mpr (fun b hb => by
    simp only [decide_eq_true_eq]
    exact fun e => ha (e ▸ hb))

/-- The distinct study keys are duplicate-free. -/
lemma studyKeys_nodup (t : List ObsRow) : (studyKeys t).Nodup :=
  List.nodup_dedup _

/-- The `(p, s)` group of a table of synthetic per-key rows is the image of
filtering the keys for `(p, s)`. -/
lemma groupRows_map_row (t : List ObsRow) (p s : String)
    (keys : List (String × String)) :
    groupRows (keys.map (fun k =>
      ({ patient := k.1, study := k.2
         vals := fun c => (aggVal t k.1 k.2 c).getD 0 } : ObsRow))) p s
    = (keys.filter (fun k => decide (k = (p, s)))).map (fun k =>
      ({ patient := k.1, study := k.2
         vals := fun c => (aggVal t k.1 k.2 c).getD 0 } : ObsRow)) := by
  induction keys with
  | nil => rfl
  | cons k ks ih =>
    simp only [List.map_cons, groupRows, List.filter_cons, Bool.decide_and] at ih ⊢
    by_cases hk : k = (p, s)
    · subst hk
      simp [ih]
    · have h1 : ¬(k.1 = p ∧ k.2 = s) := by
        simpa [Prod.ext_iff] using hk
      simp [h1, hk, ih]

/-- The `(p, s)` group of the aggregated table: its one synthetic row when
the key exists, empty otherwise. -/
lemma groupRows_aggTable (t : List ObsRow) (p s : String) :
    groupRows (aggTable t) p s =
      if (p, s) ∈ studyKeys t then
        [{ patient := p, study := s
           vals := fun c => (aggVal t p s c).getD 0 }]
      else [] := by
  unfold aggTable
  rw [groupRows_map_row]
  by_cases hmem : (p, s) ∈ studyKeys t
  · rw [filter_eq_singleton_of_nodup (studyKeys t) (p, s) (studyKeys_nodup t) hmem,
      if_pos hmem]
    rfl
  · rw [filter_eq_nil_of_not_mem (studyKeys t) (p, s) hmem, if_neg hmem]
    rfl

/-- Aggregating the aggregated table reproduces each group aggregate. -/
lemma aggVal_aggTable (t : List ObsRow) (p s c : String) :
    aggVal (aggTable t) p s c = aggVal t p s c := by
  by_cases hmem : (p, s) ∈ studyKeys t
  · have hne : groupRows t p s ≠ [] := fun h =>
      ((groupRows_eq_nil_iff t p s).mp h) hmem
    have hmapne : ((groupRows t p s).map (fun r => r.vals c)) ≠ [] := by
      simpa using hne
    obtain ⟨v, hv⟩ : ∃ v, aggVal t p s c = some v := by
      cases h : aggVal t p s c with
      | none =>
        rw [aggVal, List.max?_eq_none_iff] at h
        exact absurd h hmapne
      | some v => exact ⟨v, rfl⟩
    rw [hv, aggVal, groupRows_aggTable, if_pos hmem]
    simp [hv]
  · rw [aggVal, groupRows_aggTable, if_neg hmem, aggVal,
      (groupRows_eq_nil_iff t p s).mpr hmem]

/-- The aggregated table has the same study keys as the original. -/
lemma studyKeys_aggTable (t : List ObsRow) : studyKeys (aggTable t) = studyKeys t := by
  show ((aggTable t).map (fun r => (r.patient, r.study))).dedup = studyKeys t
  rw [aggTable, List.map_map]
  have : ((fun r : ObsRow => (r.patient, r.study)) ∘ fun k : String × String =>
      ({ patient := k.1, study := k.2
         vals := fun c => (aggVal t k.1 k.2 c).getD 0 } : ObsRow)) = id := by
    funext k
    cases k
    rfl
  rw [this, List.map_id]
  exact List.dedup_eq_self.mpr (List.nodup_dedup _)

/-- C8: study aggregation is idempotent — every group aggregate of the
already-aggregated one-row-per-study table equals the aggregate of the
original table, and re-aggregating the aggregated table reproduces it
exactly. -/
theorem study_agg_idempotent (t : List ObsRow) :
    (∀ p s c, aggVal (aggTable t) p s c = aggVal t p s c) ∧
    aggTable (aggTable t) = aggTable t := by
  refine ⟨fun p s c => aggVal_aggTable t p s c, ?_⟩
  have h1 : aggTable (aggTable t) = (studyKeys t).map (fun k =>
      ({ patient := k.1, study := k.2
         vals := fun c => (aggVal (aggTable t) k.1 k.2 c).getD 0 } : ObsRow)) := by
    rw [← studyKeys_aggTable t]
    rfl
  rw [h1]
  show _ = (studyKeys t).map (fun k =>
      ({ patient := k.1, study := k.2
         vals := fun c => (aggVal t k.1 k.2 c).getD 0 } : ObsRow))
  apply List.map_congr_left
  intro k _
  congr 1
  funext c
  rw [aggVal_aggTable]

/-- Maximum of a list extended by one element on the right. -/
lemma max?_concat (l : List Rat) (x : Rat) :
    (l ++ [x]).max? = some (l.max?.elim x (fun m => max m x)) := by
  induction l with
  | nil => rfl
  | cons y l ih =>
    rw [List.cons_append, List.max?_cons, List.max?_cons, ih]
    cases l.max? <;> simp [max_assoc]

/-- C10: study aggregates are monotone under adding images — appending one
row leaves the aggregate of every other (patient, study) group unchanged,
and never decreases the aggregate of the appended row's own group in any
finding column. -/
theorem study_agg_monotone (t : List ObsRow) (r : ObsRow) (c : String) :
    (∀ p s, ¬(p = r.patient ∧ s = r.study) →
      aggVal (t ++ [r]) p s c = aggVal t p s c) ∧
    (∀ v, aggVal t r.patient r.study c = some v →
      ∃ w, aggVal (t ++ [r]) r.patient r.study c = some w ∧ v ≤ w) := by
  constructor
  · intro p s hne
    rw [aggVal, aggVal, groupRows, groupRows, List.filter_append]
    have hnil : List.filter
        (fun q => decide (q.patient = p ∧ q.study = s)) [r] = [] := by
      rw [List.filter_cons, if_neg]
      · rfl
      · simp only [decide_eq_true_eq]
        exact fun h => hne ⟨h.1.symm, h.2.symm⟩
    rw [hnil, List.append_nil]
  · intro v hv
    rw [aggVal, groupRows] at hv ⊢
    rw [List.filter_append]
    have hr : List.filter
        (fun q => decide (q.patient = r.patient ∧ q.study = r.study)) [r] = [r] := by
      simp [List.filter_cons]
    rw [hr, List.map_append]
    simp only [List.map_cons, List.map_nil]
    rw [max?_concat, hv]
    exact ⟨max v (r.vals c), rfl, le_max_left v (r.vals c)⟩

/-- A first image row of study (patient00001, study1), Edema score 1. -/
def imgRowA : ObsRow :=
  { patient := "patient00001", study := "study1"
    vals := fun c => if c = "Edema" then 1 else 0 }

/-- A second image row of the same study, Edema score 3. -/
def imgRowB : ObsRow :=
  { patient := "patient00001", study := "study1"
    vals := fun c => if c = "Edema" then 3 else 0 }

/-- C10 witness: appending `imgRowB` leaves a foreign key's aggregate
unchanged and does not decrease its own group's Edema aggregate of 1. -/
theorem study_agg_monotone_witness :
    (aggVal ([imgRowA] ++ [imgRowB]) "patient00002" "study1" "Edema"
      = aggVal [imgRowA] "patient00002" "study1" "Edema") ∧
    (∃ w, aggVal ([imgRowA] ++ [imgRowB]) "patient00001" "study1" "Edema"
      = some w ∧ (1 : Rat) ≤ w) :=
  ⟨(study_agg_monotone [imgRowA] imgRowB "Edema").1 "patient00002" "study1"
      (by decide),
   (study_agg_monotone [imgRowA] imgRowB "Edema").2 1 (by decide)⟩

/-- Modelled from the spec: the pairwise contribution of one positive score
`p` against one negative score `n` under the rank-based AUC with average
rank for ties — 1 when `p` ranks higher, 1/2 on a tie, 0 otherwise. -/
def tieScore (p n : Rat) : Rat :=
  if n < p then 1 else if n = p then 1/2 else 0

/-- Scores of the studies whose ground-truth indicator is 1 (positives). -/
def posScores (y_true y_score : List Rat) : List Rat :=
  ((y_true.zip y_score).filter (fun pr => decide (pr.1 = 1))).map Prod.snd

/-- Scores of the studies whose ground-truth indicator is not 1 (negatives). -/
def negScores (y_true y_score : List Rat) : List Rat :=
  ((y_true.zip y_score).filter (fun pr => decide (¬pr.1 = 1))).map Prod.snd

/-- Total pairwise score over all positive/negative pairs. -/
def pairScoreSum (pos neg : List Rat) : Rat :=
  (pos.map (fun p => ((neg.map (fun n => tieScore p n)).sum))).sum

/-- Modelled from the spec: `sklearn.metrics.roc_auc_score` is external
library code not in the repository.  Per the spec it computes the rank-based
AUC with average rank for tied scores, and it fails (here: `none`, embedding
sklearn's raised error) when the ground-truth vector is constant, i.e. when
either class is absent. -/
def roc_auc_score (y_true y_score : List Rat) : Option Rat :=
  if posScores y_true y_score = [] ∨ negScores y_true y_score = [] then none
  else
    some (pairScoreSum (posScores y_true y_score) (negScores y_true y_score) /
      (((posScores y_true y_score).length : Rat) *
        ((negScores y_true y_score).length : Rat)))

/-- C4: when the aggregated ground-truth vector of a finding is constant
(all studies positive, or none positive), the AUC computation fails with the
degenerate-label sentinel instead of fabricating a score. -/
theorem roc_auc_degenerate_fails (y_true y_score : List Rat)
    (h : (∀ v ∈ y_true, v = 1) ∨ (∀ v ∈ y_true, v ≠ 1)) :
    roc_auc_score y_true y_score = none := by
  rcases h with h | h
  · have hneg : negScores y_true y_score = [] := by
      rw [negScores, List.map_eq_nil_iff, List.filter_eq_nil_iff]
      rintro ⟨a, b⟩ hab
      simp only [decide_eq_true_eq, not_not]
      exact h a (List.of_mem_zip hab).1
    rw [roc_auc_score, if_pos (Or.inr hneg)]
  · have hpos : posScores y_true y_score = [] := by
      rw [posScores, List.map_eq_nil_iff, List.filter_eq_nil_iff]
      rintro ⟨a, b⟩ hab
      simp only [decide_eq_true_eq]
      exact h a (List.of_mem_zip hab).1
    rw [roc_auc_score, if_pos (Or.inl hpos)]

/-- C4 witness: a two-study evaluation whose ground truth is all-positive
yields the failure sentinel, not a score. -/
theorem roc_auc_degenerate_fails_witness :
    (∀ v ∈ ([1, 1] : List Rat), v = 1) ∧
    roc_auc_score [1, 1] [0, 1] = none :=
  ⟨by decide, roc_auc_degenerate_fails [1, 1] [0, 1] (Or.inl (by decide))⟩

/-- A tied pair contributes exactly 1/2. -/
lemma tieScore_self (c : Rat) : tieScore c c = 1/2 := by
  simp [tieScore]

/-- Every positive score is an input score. -/
lemma posScores_subset (y_true y_score : List Rat) :
    ∀ x ∈ posScores y_true y_score, x ∈ y_score := by
  intro x hx
  rcases List.mem_map.mp hx with ⟨pr, hpr, rfl⟩
  obtain ⟨a, b⟩ := pr
  exact (List.of_mem_zip (List.mem_filter.mp hpr).1).2

/-- Every negative score is an input score. -/
lemma negScores_subset (y_true y_score : List Rat) :
    ∀ x ∈ negScores y_true y_score, x ∈ y_score := by
  intro x hx
  rcases List.mem_map.mp hx with ⟨pr, hpr, rfl⟩
  obtain ⟨a, b⟩ := pr
  exact (List.of_mem_zip (List.mem_filter.mp hpr).1).2

/-- With equal-length inputs, a ground-truth value of 1 contributes its
aligned score to the positives. -/
lemma posScores_ne_nil (y_true y_score : List Rat)
    (hlen : y_true.length = y_score.length) (hpos : (1 : Rat) ∈ y_true) :
    posScores y_true y_score ≠ [] := by
  obtain ⟨i, hi, hgi⟩ := List.mem_iff_getElem.mp hpos
  have hzlen : i < (y_true.zip y_score).length := by
    rw [List.length_zip, ← hlen, Nat.min_self]
    exact hi
  intro hnil
  have hmem : (y_true.zip y_score)[i].2 ∈ posScores y_true y_score := by
    apply List.mem_map.mpr
    refine ⟨(y_true.zip y_score)[i], List.mem_filter.mpr ⟨List.getElem_mem _, ?_⟩, rfl⟩
    rw [List.getElem_zip]
    simpa using hgi
  rw [hnil] at hmem
  cases hmem

/-- With equal-length inputs, a ground-truth value other than 1 contributes
its aligned score to the negatives. -/
lemma negScores_ne_nil (y_true y_score : List Rat)
    (hlen : y_true.length = y_score.length)
    (hneg : ∃ v ∈ y_true, v ≠ 1) :
    negScores y_true y_score ≠ [] := by
  obtain ⟨v, hv, hvne⟩ := hneg
  obtain ⟨i, hi, hgi⟩ := List.mem_iff_getElem.mp hv
  have hzlen : i < (y_true.zip y_score).length := by
    rw [List.length_zip, ← hlen, Nat.min_self]
    exact hi
  intro hnil
  have hmem : (y_true.zip y_score)[i].2 ∈ negScores y_true y_score := by
    apply List.mem_map.mpr
    refine ⟨(y_true.zip y_score)[i], List.mem_filter.mpr ⟨List.getElem_mem _, ?_⟩, rfl⟩
    rw [List.getElem_zip]
    simpa using hgi ▸ hvne
  rw [hnil] at hmem
  cases hmem

/-- C5: on a non-degenerate evaluation input (at least one positive and one
negative study), a predictor that outputs one identical score for every
study receives an AUC of exactly 1/2 under the rank-based definition with
average rank for ties. -/
theorem roc_auc_const_predictor (y_true y_score : List Rat) (c : Rat)
    (hlen : y_true.length = y_score.length)
    (hpos : (1 : Rat) ∈ y_true) (hneg : ∃ v ∈ y_true, v ≠ 1)
    (hconst : ∀ v ∈ y_score, v = c) :
    roc_auc_score y_true y_score = some (1/2) := by
  have hposne := posScores_ne_nil y_true y_score hlen hpos
  have hnegne := negScores_ne_nil y_true y_score hlen hneg
  have hposc : ∀ x ∈ posScores y_true y_score, x = c :=
    fun x hx => hconst x (posScores_subset y_true y_score x hx)
  have hnegc : ∀ x ∈ negScores y_true y_score, x = c :=
    fun x hx => hconst x (negScores_subset y_true y_score x hx)
  have hinner : ∀ p ∈ posScores y_true y_score,
      ((negScores y_true y_score).map (fun n => tieScore p n)).sum
        = ((negScores y_true y_score).length : Rat) * (1/2) := by
    intro p hp
    have hall : ∀ x ∈ (negScores y_true y_score).map (fun n => tieScore p n),
        x = (1/2 : Rat) := by
      intro x hx
      rcases List.mem_map.mp hx with ⟨n, hn, rfl⟩
      rw [hnegc n hn, hposc p hp, tieScore_self]
    rw [List.sum_eq_card_nsmul _ _ hall, List.length_map, nsmul_eq_mul]
  have houter : (pairScoreSum (posScores y_true y_score) (negScores y_true y_score))
      = ((posScores y_true y_score).length : Rat) *
        (((negScores y_true y_score).length : Rat) * (1/2)) := by
    rw [pairScoreSum]
    have hall : ∀ x ∈ (posScores y_true y_score).map
        (fun p => ((negScores y_true y_score).map (fun n => tieScore p n)).sum),
        x = ((negScores y_true y_score).length : Rat) * (1/2) := by
      intro x hx
      rcases List.mem_map.mp hx with ⟨p, hp, rfl⟩
      exact hinner p hp
    rw [List.sum_eq_card_nsmul _ _ hall, List.length_map, nsmul_eq_mul]
  have hP : (((posScores y_true y_score).length : Nat) : Rat) ≠ 0 :=
    Nat.cast_ne_zero.mpr (by simpa [List.length_eq_zero] using hposne)
  have hN : (((negScores y_true y_score).length : Nat) : Rat) ≠ 0 :=
    Nat.cast_ne_zero.mpr (by simpa [List.length_eq_zero] using hnegne)
  rw [roc_auc_score, if_neg (not_or.mpr ⟨hposne, hnegne⟩), houter, ← mul_assoc]
  rw [mul_div_assoc, mul_comm, div_mul_cancel₀ _ (mul_ne_zero hP hN)]

/-- C5 witness: ground truth [1, 0] with the constant score vector [3, 3]
yields an AUC of exactly 1/2. -/
theorem roc_auc_const_predictor_witness :
    ((1 : Rat) ∈ ([1, 0] : List Rat)) ∧
    roc_auc_score [1, 0] [3, 3] = some (1/2) :=
  ⟨by decide, roc_auc_const_predictor [1, 0] [3, 3] 3 rfl (by decide)
    ⟨0, by decide, by decide⟩ (by decide)⟩
